import Mathlib

/-!
Verification development for the graphql-custom-directive library
(src/index.js).  The source is shallowly embedded: JavaScript values are
modelled by the inductive JSValue, promises by Except (a promise that
fulfils with v is Except.ok v, one that rejects with e is Except.error e;
the synchronous/asynchronous distinction is not modelled), and thrown
JavaScript exceptions by JSError.  The wrapped resolver produced by
resolveMiddlewareWrapper additionally returns a trace of the directive
transform invocations it performs (a list of CallEvent), so that claims
about which transforms run, in which order and with which arguments can
be stated; the trace is instrumentation only and never feeds back into
the computed result.
-/

set_option autoImplicit false

/-- A JavaScript value, as far as the library inspects values: the library
only branches on truthiness, on property access of plain objects, and on
null/undefined.  Function-valued properties (the method-dispatch branch of
defaultResolveFn) are not representable; no claim depends on them. -/
inductive JSValue where
  | null
  | undefined
  | bool (b : Bool)
  | int (n : Int)
  | str (s : String)
  | obj (fields : List (String × JSValue))

/-- JavaScript truthiness of a modelled value. -/
def jsTruthy : JSValue → Bool
  | JSValue.null => false
  | JSValue.undefined => false
  | JSValue.bool b => b
  | JSValue.int n => decide (n ≠ 0)
  | JSValue.str s => decide (s ≠ "")
  | JSValue.obj _ => true

/-- The JavaScript a || b operator: the first operand when truthy,
otherwise the second. -/
def jsOr (a b : JSValue) : JSValue :=
  if jsTruthy a then a else b

/-- Property access o[k] on a plain object represented as an ordered
association list; a missing key yields undefined. -/
def objGet (fields : List (String × JSValue)) (k : String) : JSValue :=
  match fields.find? (fun p => p.1 == k) with
  | some p => p.2
  | none => JSValue.undefined

/-- A JavaScript exception: either a user-thrown value (throw v /
new Error(msg)) or a TypeError raised by the runtime on an illegal
property access or call. -/
inductive JSError where
  | thrown (v : JSValue)
  | typeError (msg : String)

/-- A directive invocation node attached to a field: a syntactic node
parsed from the query text, or a node synthesized by
parseSchemaDirectives from a static schema-side declaration.  The source
stores the name under name.value; args is the raw argument payload of
the invocation, consumed only by the host engine's argument coercion
(modelled abstractly by GraphQLDirective.getArgs). -/
structure DirectiveNode where
  name : String
  args : List (String × JSValue)

/-- The transform supplied by a directive author, from the source
signature (resolve, source, args, context, info) => promise.  The info
argument is not passed into modelled transforms (the registry inside
info contains transforms, which would make the type self-referential);
the trace records that the wrapper supplies info unchanged. -/
def TransformFn : Type :=
  (Unit → Except JSError JSValue) → JSValue → List (String × JSValue) → JSValue →
    Except JSError JSValue

/-- A registered directive as it sits in schema._directives: its name, the
host engine's argument coercion specialized to its declaration (the
getDirectiveValues call, out of scope per the spec and therefore
abstract), and the optional custom resolve member.  Built-in directives
(skip, include) have resolve = none. -/
structure GraphQLDirective where
  name : String
  getArgs : DirectiveNode → List (String × JSValue) → List (String × JSValue)
  resolve : Option TransformFn

/-- The slice of the GraphQL resolve info that the library reads:
info.schema._directives, info.variableValues, the directives of
(info.fieldASTs || info.fieldNodes)[0] (the host engine always supplies
at least one field node, so only the first node's directives are
modelled), and info.fieldName. -/
structure GraphQLResolveInfo where
  schemaDirectives : List GraphQLDirective
  variableValues : List (String × JSValue)
  fieldDirectives : List DirectiveNode
  fieldName : String

/-- A field resolver (source, args, context, info) => value-or-throw. -/
def Resolver : Type :=
  JSValue → List (String × JSValue) → JSValue → GraphQLResolveInfo →
    Except JSError JSValue

/-- One invocation of resolveWithDirective that actually reached a
directive transform.  next is the promise the next closure passed to the
transform produces; result is the promise the transform returned;
errorPath is true for the invocations made from the discarded
defer.catch handlers (lines 110 and 135 of the source) and false for
the main pipeline invocations (lines 103 and 126). -/
structure CallEvent where
  dirName : String
  next : Except JSError JSValue
  source : JSValue
  args : List (String × JSValue)
  context : JSValue
  info : GraphQLResolveInfo
  result : Except JSError JSValue
  errorPath : Bool

/-- Tag an event as coming from a catch handler. -/
def markErrorPath (c : CallEvent) : CallEvent :=
  { c with errorPath := true }

/-- The main-pipeline (non-catch) invocations of a trace. -/
def mainEvs (l : List CallEvent) : List CallEvent :=
  l.filter (fun e => !e.errorPath)

/-- The directive names of a trace, in order. -/
def evNames (l : List CallEvent) : List String :=
  l.map (fun e => e.dirName)

/-- const DEFAULT_DIRECTIVES = ['skip', 'include']; -/
def DEFAULT_DIRECTIVES : List String := ["skip", "include"]

/-- The default resolve behavior (lines 12-20): take the property of the
source object named like the field.  In JavaScript, typeof null is
"object", so a null source enters the branch and the property access
throws a TypeError; primitive sources fall through and return undefined.
The function-valued-property dispatch is outside the value model. -/
def defaultResolveFn : Resolver := fun source _args _context info =>
  match source with
  | JSValue.obj fields => Except.ok (objGet fields info.fieldName)
  | JSValue.null => Except.error (JSError.typeError "Cannot read properties of null")
  | _ => Except.ok JSValue.undefined

/-- info.schema._directives.filter(d => name === d.name)[0] (lines 27-29). -/
def lookupDirective (l : List GraphQLDirective) (n : String) : Option GraphQLDirective :=
  (l.filter (fun d => n == d.name)).head?

/-- Line 26 of the source: source is replaced, when falsy, by
info.variableValues.input_0, else info.variableValues.input, else {}. -/
def effectiveSource (source : JSValue) (info : GraphQLResolveInfo) : JSValue :=
  jsOr source (jsOr (objGet info.variableValues "input_0")
    (jsOr (objGet info.variableValues "input") (JSValue.obj [])))

/-- resolveWithDirective (lines 25-40): rebind source, look up the
directive configuration by name, coerce the arguments, and call the
configuration's resolve member.  A failed lookup, or a configuration
without a resolve member (the built-ins), raises a TypeError.  The
second component is the trace: one event when a transform was invoked. -/
def resolveWithDirective (resolve : Unit → Except JSError JSValue) (source : JSValue)
    (directive : DirectiveNode) (context : JSValue) (info : GraphQLResolveInfo) :
    Except JSError JSValue × List CallEvent :=
  let src := effectiveSource source info
  match lookupDirective info.schemaDirectives directive.name with
  | none => (Except.error (JSError.typeError "Cannot read property resolve of undefined"), [])
  | some cfg =>
    match cfg.resolve with
    | none => (Except.error (JSError.typeError "directiveConfig.resolve is not a function"), [])
    | some f =>
      let args := cfg.getArgs directive info.variableValues
      let res := f resolve src args context
      (res,
        [{ dirName := directive.name, next := resolve (), source := src, args := args,
           context := context, info := info, result := res, errorPath := false }])

/-- parseSchemaDirectives (lines 45-81): synthesize one invocation node
per key of the field's static directives configuration, in declaration
order.  The argument-node synthesis of the source (which reads
directives.args, not directives[name].args) is not modelled: the
synthesized arguments flow only into the abstract argument coercion. -/
def parseSchemaDirectives (directives : List (String × JSValue)) : List DirectiveNode :=
  directives.map (fun p => { name := p.1, args := [] })

/-- The invocations performed by the defer.catch handlers of lines
110-119 and 135-143: when the step's promise rejected with e, the same
directive is resolved again with a next closure producing a promise
rejected with e; the result is discarded, only the trace remains. -/
def catchEvents (source : JSValue) (d : DirectiveNode) (context : JSValue)
    (info : GraphQLResolveInfo) : Except JSError JSValue → List CallEvent
  | Except.ok _ => []
  | Except.error e =>
    (resolveWithDirective (fun _ => Except.error e) source d context info).2.map markErrorPath

/-- One iteration of the loop of lines 125-144: on a fulfilled chain the
next directive is resolved with a next closure producing the previous
result (defer.then of line 126); on a rejected chain the then callback
is skipped and the rejection passes through; in either case the
defer.catch of line 135 fires on a rejected outcome. -/
def pipelineStep (source : JSValue) (context : JSValue) (info : GraphQLResolveInfo)
    (acc : Except JSError JSValue × List CallEvent) (d : DirectiveNode) :
    Except JSError JSValue × List CallEvent :=
  match acc.1 with
  | Except.error e =>
    (Except.error e, acc.2 ++ catchEvents source d context info (Except.error e))
  | Except.ok v =>
    let r := resolveWithDirective (fun _ => Except.ok v) source d context info
    (r.1, acc.2 ++ r.2 ++ catchEvents source d context info r.1)

/-- resolveMiddlewareWrapper (lines 88-148).  The wrapped resolver
concatenates the synthesized static nodes with the syntactic nodes of
the first field node, picks the first invocation whose name is not a
built-in, and if none exists calls the original resolver directly.
Otherwise it seeds the chain with that invocation (next producing the
original resolver's promise, line 104), attaches the discarded catch of
line 110, and, when the unfiltered list has more than one element,
folds the loop of lines 125-144 over the tail of the unfiltered list. -/
def resolveMiddlewareWrapper (resolve? : Option Resolver)
    (directives? : Option (List (String × JSValue))) :
    JSValue → List (String × JSValue) → JSValue → GraphQLResolveInfo →
      Except JSError JSValue × List CallEvent :=
  let serverDirectives := parseSchemaDirectives (directives?.getD [])
  fun source args context info =>
    let resolve := resolve?.getD defaultResolveFn
    let ds := serverDirectives ++ info.fieldDirectives
    match (ds.filter (fun d => !(DEFAULT_DIRECTIVES.contains d.name))).head? with
    | none => (resolve source args context info, [])
    | some d0 =>
      let r0 := resolveWithDirective (fun _ => resolve source args context info)
        source d0 context info
      let ev0 := r0.2 ++ catchEvents source d0 context info r0.1
      if ds.length ≤ 1 then (r0.1, ev0)
      else List.foldl (pipelineStep source context info) (r0.1, ev0) (ds.drop 1)

/-- A field's declared output type: the underlying named type possibly
wrapped in list / non-null wrappers. -/
inductive FieldTypeRef where
  | named (n : String)
  | list (t : FieldTypeRef)
  | nonNull (t : FieldTypeRef)
deriving DecidableEq

/-- The schema's object types: name to ordered fields (label and declared
type).  Scalar types do not appear here (they have no _fields member);
a field whose named type is absent from the graph models a field of
scalar type. -/
abbrev Graph : Type := List (String × List (String × FieldTypeRef))

/-- The name property of a type object: wrapper types (list, non-null)
have no name. -/
def typeRefName : FieldTypeRef → Option String
  | FieldTypeRef.named n => some n
  | _ => none

/-- A JavaScript property key: indexing an object with undefined coerces
the key to the string "undefined".  The model assumes no schema type is
literally named "undefined". -/
def jsPropKey : Option String → String
  | some n => n
  | none => "undefined"

/-- The guard typeMet[field.type.name] of line 163. -/
def typeRefMet (typeMet : List String) (t : FieldTypeRef) : Bool :=
  typeMet.contains (jsPropKey (typeRefName t))

/-- Look a type's fields up by name. -/
def lookupType (g : Graph) (n : String) : Option (List (String × FieldTypeRef)) :=
  (g.find? (fun p => p.1 == n)).map (fun p => p.2)

/-- The type the walk descends into after wrapping a field, per lines
169-179: only when deepWrap holds and field.type._fields exists, i.e.
the field's type is an unwrapped object type of the graph.  The else-if
branch for wrapper types (lines 171-179) calls wrapFieldsWithMiddleware
with child._fields - a fields object, not a type - whose _fields member
is undefined, so that call iterates nothing and mutates nothing shared:
it is a no-op and descends nowhere. -/
def descendTarget (g : Graph) (deepWrap : Bool) (t : FieldTypeRef) : Option String :=
  match t, deepWrap with
  | FieldTypeRef.named m, true => if (lookupType g m).isSome then some m else none
  | _, _ => none

/-- The for-in loop of lines 161-182, abstracted over the recursive walk
so the whole definition is structural.  State: the threaded typeMet set
and the accumulated list of (type name, field label) pairs whose resolve
slot was replaced.  A field whose type name is already in typeMet is
skipped entirely - not wrapped and not descended into (line 163). -/
def wrapLoopWith (g : Graph) (deepWrap : Bool)
    (walk : Option String → List String → Option (List String × List (String × String)))
    (fields : List (String × FieldTypeRef)) (cur : String) (typeMet : List String) :
    Option (List String × List (String × String)) :=
  match fields with
  | [] => some (typeMet, [])
  | (label, tref) :: rest =>
    if typeRefMet typeMet tref then
      wrapLoopWith g deepWrap walk rest cur typeMet
    else
      match descendTarget g deepWrap tref with
      | some m =>
        (walk (some m) typeMet).bind (fun r1 =>
          (wrapLoopWith g deepWrap walk rest cur r1.1).map (fun r2 =>
            (r2.1, (cur, label) :: (r1.2 ++ r2.2))))
      | none =>
        (wrapLoopWith g deepWrap walk rest cur typeMet).map (fun r2 =>
          (r2.1, (cur, label) :: r2.2))

/-- wrapFieldsWithMiddleware (lines 154-183), with an explicit fuel for
the recursion depth (the JavaScript recursion is bounded because each
recursive call is guarded by the typeMet set; the fuel theorem below
shows any fuel exceeding the number of unvisited type names suffices).
An absent root type returns immediately (line 155); otherwise the root's
name is recorded in typeMet (line 160) and its fields are walked. -/
def wrapFieldsWithMiddleware (g : Graph) (deepWrap : Bool) :
    Nat → Option String → List String → Option (List String × List (String × String))
  | 0, _, _ => none
  | _ + 1, none, typeMet => some (typeMet, [])
  | fuel + 1, some n, typeMet =>
    wrapLoopWith g deepWrap (wrapFieldsWithMiddleware g deepWrap fuel)
      ((lookupType g n).getD []) n (n :: typeMet)

/-- The distinct type names of a graph. -/
def typeNames (g : Graph) : List String :=
  (g.map (fun p => p.1)).dedup

/-- How many of the graph's type names are not yet in the visited set. -/
def unvisitedCount (g : Graph) (typeMet : List String) : Nat :=
  ((typeNames g).filter (fun n => !(typeMet.contains n))).length

/-- Every type of the graph declares fields with pairwise distinct
labels (JavaScript object keys are unique). -/
def gLabelsNodup (g : Graph) : Prop :=
  ∀ p ∈ g, ((p.2.map (fun q => q.1)).Nodup)

/-- The slice of a GraphQLSchema instance the library reads:
schema._queryType, schema._mutationType (either may be absent) and the
object-type graph they live in. -/
structure GraphQLSchemaModel where
  types : Graph
  queryType : Option String
  mutationType : Option String

/-- The argument of applySchemaCustomDirectives: either a schema instance
or any other value (the instanceof check fails on the latter). -/
inductive SchemaArg where
  | schema (s : GraphQLSchemaModel)
  | notSchema (v : JSValue)

/-- applySchemaCustomDirectives (lines 202-211): reject a non-schema
argument with a synchronous Error before touching any resolver, else
walk the query root deeply and the mutation root shallowly and return
true.  The second component collects the (type, field) pairs whose
resolver was replaced; the fuel types.length + 1 always suffices by the
termination theorem below (the getD default is never taken). -/
def applySchemaCustomDirectives (arg : SchemaArg) :
    Except JSError Bool × List (String × String) :=
  match arg with
  | SchemaArg.notSchema _ =>
    (Except.error (JSError.thrown (JSValue.str "Schema must be instanceof GraphQLSchema")), [])
  | SchemaArg.schema s =>
    let fuel := s.types.length + 1
    let q := (wrapFieldsWithMiddleware s.types true fuel s.queryType []).getD ([], [])
    let m := (wrapFieldsWithMiddleware s.types false fuel s.mutationType []).getD ([], [])
    (Except.ok true, q.2 ++ m.2)

/-- The chain built by the loop of lines 125-144 starting from a
fulfilled promise with an empty trace. -/
def runPipeline (source context : JSValue) (info : GraphQLResolveInfo) (v : JSValue)
    (ds : List DirectiveNode) : Except JSError JSValue × List CallEvent :=
  List.foldl (pipelineStep source context info) (Except.ok v, []) ds

/-- The chain the wrapped resolver builds once the first custom directive
d0 is located (lines 103-147): the seeded first step with its catch,
returned directly when the unfiltered list has a single element, else
followed by the loop over the tail dtail of the unfiltered list.  The
wrapped resolver equals this chain (lemma below); it is split out so the
chain can be analysed for any next closure orig. -/
def wrapperChain (source context : JSValue) (info : GraphQLResolveInfo)
    (orig : Unit → Except JSError JSValue) (d0 : DirectiveNode)
    (dtail : List DirectiveNode) : Except JSError JSValue × List CallEvent :=
  if (d0 :: dtail).length ≤ 1 then
    ((resolveWithDirective orig source d0 context info).1,
      (resolveWithDirective orig source d0 context info).2 ++
        catchEvents source d0 context info
          (resolveWithDirective orig source d0 context info).1)
  else
    List.foldl (pipelineStep source context info)
      ((resolveWithDirective orig source d0 context info).1,
        (resolveWithDirective orig source d0 context info).2 ++
          catchEvents source d0 context info
            (resolveWithDirective orig source d0 context info).1)
      dtail

/-! ### Concrete fixtures used to evaluate the model on the scenarios of
the test suite (a duplicate-like custom directive, the built-in skip
without a resolve member, a throwing directive, an unregistered name). -/

/-- A registered custom directive named duplicate whose transform just
forwards the upstream value (argument handling is irrelevant here). -/
def dupCfg : GraphQLDirective :=
  { name := "duplicate", getArgs := fun _ _ => [], resolve := some (fun next _ _ _ => next ()) }

/-- The built-in skip directive as registered by the host engine: present
in schema._directives, no custom resolve member. -/
def skipCfg : GraphQLDirective :=
  { name := "skip", getArgs := fun _ _ => [], resolve := none }

/-- A directive whose transform rejects after the upstream fulfils, as in
the test suite's throws directive. -/
def throwsCfg : GraphQLDirective :=
  { name := "throws", getArgs := fun _ _ => [],
    resolve := some (fun next _ _ _ =>
      match next () with
      | Except.ok _ => Except.error (JSError.thrown (JSValue.str "Test Error"))
      | Except.error e => Except.error e) }

/-- A field resolver that fulfils with the string test. -/
def rTest : Resolver := fun _ _ _ _ => Except.ok (JSValue.str "test")

/-- A syntactic invocation node with a given name and no arguments. -/
def node0 (n : String) : DirectiveNode := { name := n, args := [] }

/-- Field with query-text directives @skip @duplicate (in that order). -/
def infoSkipDup : GraphQLResolveInfo :=
  { schemaDirectives := [skipCfg, dupCfg], variableValues := [],
    fieldDirectives := [node0 "skip", node0 "duplicate"], fieldName := "value" }

/-- Field with query-text directives @duplicate @skip (in that order). -/
def infoDupSkip : GraphQLResolveInfo :=
  { schemaDirectives := [skipCfg, dupCfg], variableValues := [],
    fieldDirectives := [node0 "duplicate", node0 "skip"], fieldName := "value" }

/-- Field with @duplicate only, and a query variable named input, used to
exercise the source rebinding of line 26 with a null source. -/
def infoInputVar : GraphQLResolveInfo :=
  { schemaDirectives := [dupCfg], variableValues := [("input", JSValue.str "x")],
    fieldDirectives := [node0 "duplicate"], fieldName := "value" }

/-- Field with a directive @foo that no registered directive matches. -/
def infoUnknown : GraphQLResolveInfo :=
  { schemaDirectives := [dupCfg], variableValues := [],
    fieldDirectives := [node0 "foo"], fieldName := "value" }

/-- Field with only the built-in @skip attached. -/
def infoOnlySkip : GraphQLResolveInfo :=
  { schemaDirectives := [skipCfg, dupCfg], variableValues := [],
    fieldDirectives := [node0 "skip"], fieldName := "value" }

/-- Field with the throwing directive attached. -/
def infoThrows : GraphQLResolveInfo :=
  { schemaDirectives := [throwsCfg], variableValues := [],
    fieldDirectives := [node0 "throws"], fieldName := "value" }

/-- Field with @duplicate @duplicate, a two-step custom pipeline. -/
def infoDupDup : GraphQLResolveInfo :=
  { schemaDirectives := [skipCfg, dupCfg], variableValues := [],
    fieldDirectives := [node0 "duplicate", node0 "duplicate"], fieldName := "value" }

/-- A self-referential type graph: type A has a field a of type A. -/
def gSelf : Graph := [("A", [("a", FieldTypeRef.named "A")])]

/-- A mutation root whose single field returns the root type itself. -/
def gMut : Graph := [("M", [("m", FieldTypeRef.named "M")])]

/-- A small acyclic graph: Q has fields t1 t2 of object type T, T has a
scalar field x. -/
def gQT : Graph :=
  [("Q", [("t1", FieldTypeRef.named "T"), ("t2", FieldTypeRef.named "T")]),
   ("T", [("x", FieldTypeRef.named "String")])]

/-! ### Trace bookkeeping lemmas for the resolution pipeline -/

theorem mainEvs_append (a b : List CallEvent) :
    mainEvs (a ++ b) = mainEvs a ++ mainEvs b := by
  simp [mainEvs, List.filter_append]

theorem mainEvs_markErrorPath (l : List CallEvent) :
    mainEvs (l.map markErrorPath) = [] := by
  induction l with
  | nil => rfl
  | cons c t ih =>
    simp only [List.map_cons, mainEvs, markErrorPath, List.filter_cons] at ih ⊢
    simpa using ih

theorem mainEvs_catchEvents (source : JSValue) (d : DirectiveNode) (context : JSValue)
    (info : GraphQLResolveInfo) (r : Except JSError JSValue) :
    mainEvs (catchEvents source d context info r) = [] := by
  cases r with
  | ok v => rfl
  | error e => exact mainEvs_markErrorPath _

/-- Shape of a single resolveWithDirective call: either the lookup (or
the resolve member) is missing and the call raises a TypeError with an
empty trace, or exactly one transform invocation is recorded, carrying
the directive's name, the supplied next promise, the rebound source, the
unchanged context and info, and the transform's own result. -/
theorem resolveWithDirective_spec (next : Unit → Except JSError JSValue) (source : JSValue)
    (d : DirectiveNode) (context : JSValue) (info : GraphQLResolveInfo) :
    ((resolveWithDirective next source d context info).2 = [] ∧
      ∃ msg, (resolveWithDirective next source d context info).1 =
        Except.error (JSError.typeError msg)) ∨
    (∃ ev, (resolveWithDirective next source d context info).2 = [ev] ∧
      ev.errorPath = false ∧ ev.dirName = d.name ∧ ev.next = next () ∧
      ev.result = (resolveWithDirective next source d context info).1 ∧
      ev.source = effectiveSource source info ∧ ev.context = context ∧ ev.info = info) := by
  cases h1 : lookupDirective info.schemaDirectives d.name with
  | none => left; simp [resolveWithDirective, h1]
  | some cfg =>
    cases h2 : cfg.resolve with
    | none => left; simp [resolveWithDirective, h1, h2]
    | some f =>
      right
      simp only [resolveWithDirective, h1, h2]
      exact ⟨_, rfl, rfl, rfl, rfl, rfl, rfl, rfl, rfl⟩

theorem resolveWithDirective_lookup_none (next : Unit → Except JSError JSValue)
    (source : JSValue) (d : DirectiveNode) (context : JSValue) (info : GraphQLResolveInfo)
    (h : lookupDirective info.schemaDirectives d.name = none) :
    (resolveWithDirective next source d context info).1 =
      Except.error (JSError.typeError "Cannot read property resolve of undefined") := by
  simp [resolveWithDirective, h]

theorem pipelineStep_append (source context : JSValue) (info : GraphQLResolveInfo)
    (acc : Except JSError JSValue × List CallEvent) (d : DirectiveNode) :
    pipelineStep source context info acc d =
      ((pipelineStep source context info (acc.1, []) d).1,
        acc.2 ++ (pipelineStep source context info (acc.1, []) d).2) := by
  obtain ⟨st, evs⟩ := acc
  cases st <;> simp [pipelineStep]

theorem foldl_pipelineStep_append (source context : JSValue) (info : GraphQLResolveInfo) :
    ∀ (ds : List DirectiveNode) (acc : Except JSError JSValue × List CallEvent),
    List.foldl (pipelineStep source context info) acc ds =
      ((List.foldl (pipelineStep source context info) (acc.1, []) ds).1,
        acc.2 ++ (List.foldl (pipelineStep source context info) (acc.1, []) ds).2) := by
  intro ds
  induction ds with
  | nil => intro acc; simp
  | cons d rest ih =>
    intro acc
    simp only [List.foldl_cons]
    rw [pipelineStep_append source context info acc d]
    rw [ih ((pipelineStep source context info (acc.1, []) d).1,
      acc.2 ++ (pipelineStep source context info (acc.1, []) d).2)]
    rw [ih (pipelineStep source context info (acc.1, []) d)]
    simp [List.append_assoc]

/-- Once the chain has rejected, every remaining loop iteration passes
the rejection through unchanged and performs no main-pipeline transform
invocation (only the discarded catch invocations). -/
theorem foldl_pipelineStep_error (source context : JSValue) (info : GraphQLResolveInfo) :
    ∀ (ds : List DirectiveNode) (e : JSError) (evs : List CallEvent),
    (List.foldl (pipelineStep source context info) (Except.error e, evs) ds).1 =
      Except.error e ∧
    mainEvs (List.foldl (pipelineStep source context info) (Except.error e, evs) ds).2 =
      mainEvs evs := by
  intro ds
  induction ds with
  | nil => intro e evs; exact ⟨rfl, rfl⟩
  | cons d rest ih =>
    intro e evs
    simp only [List.foldl_cons]
    have hstep : pipelineStep source context info (Except.error e, evs) d =
        (Except.error e, evs ++ catchEvents source d context info (Except.error e)) := rfl
    rw [hstep]
    obtain ⟨h1, h2⟩ := ih e (evs ++ catchEvents source d context info (Except.error e))
    refine ⟨h1, ?_⟩
    rw [h2, mainEvs_append, mainEvs_catchEvents, List.append_nil]

/-- Behaviour of the pipeline loop started on a fulfilled value: the
main-pipeline invocations form a prefix of the directive list, in order;
when the final promise fulfils every directive was invoked; the first
main invocation receives the starting value as its next promise; and
each main invocation receives the previous main invocation's result as
its next promise. -/
theorem runPipeline_spec (source context : JSValue) (info : GraphQLResolveInfo) :
    ∀ (ds : List DirectiveNode) (v : JSValue),
    (∃ tail, ds.map DirectiveNode.name =
        evNames (mainEvs (runPipeline source context info v ds).2) ++ tail) ∧
    ((∃ w, (runPipeline source context info v ds).1 = Except.ok w) →
        evNames (mainEvs (runPipeline source context info v ds).2) =
          ds.map DirectiveNode.name) ∧
    ((mainEvs (runPipeline source context info v ds).2).head?.map CallEvent.next =
        (mainEvs (runPipeline source context info v ds).2).head?.map
          (fun _ => Except.ok v)) ∧
    List.Chain' (fun a b => b.next = a.result)
      (mainEvs (runPipeline source context info v ds).2) := by
  intro ds
  induction ds with
  | nil =>
    intro v
    exact ⟨⟨[], rfl⟩, fun _ => rfl, rfl, List.chain'_nil⟩
  | cons d rest ih =>
    intro v
    have key : runPipeline source context info v (d :: rest) =
        List.foldl (pipelineStep source context info)
          ((resolveWithDirective (fun _ => Except.ok v) source d context info).1,
            (resolveWithDirective (fun _ => Except.ok v) source d context info).2 ++
              catchEvents source d context info
                (resolveWithDirective (fun _ => Except.ok v) source d context info).1)
          rest := rfl
    rcases resolveWithDirective_spec (fun _ => Except.ok v) source d context info with
      ⟨h2, msg, h1⟩ | ⟨ev, h2, hep, hnm, hnx, hres, _, _, _⟩
    · -- the lookup failed: no transform was invoked, the chain rejects
      rw [h1, h2] at key
      have hf := foldl_pipelineStep_error source context info rest (JSError.typeError msg)
        ([] ++ catchEvents source d context info
          (Except.error (JSError.typeError msg)))
      have hm : mainEvs (runPipeline source context info v (d :: rest)).2 = [] := by
        rw [key, hf.2, List.nil_append, mainEvs_catchEvents]
      have h1f : (runPipeline source context info v (d :: rest)).1 =
          Except.error (JSError.typeError msg) := by
        rw [key]; exact hf.1
      refine ⟨⟨(d :: rest).map DirectiveNode.name, by rw [hm]; rfl⟩, ?_,
        by rw [hm]; rfl, ?_⟩
      · rintro ⟨w, hw⟩
        rw [h1f] at hw
        exact absurd hw (by simp)
      · rw [hm]; exact List.chain'_nil
    · -- a transform was invoked
      cases hres1 : (resolveWithDirective (fun _ => Except.ok v) source d context info).1 with
      | ok w =>
        rw [hres1, h2] at key
        have hc : catchEvents source d context info (Except.ok w) = [] := rfl
        rw [hc, List.append_nil] at key
        rw [foldl_pipelineStep_append source context info rest (Except.ok w, [ev])] at key
        have hG : List.foldl (pipelineStep source context info) ((Except.ok w, [ev]).1, [])
            rest = runPipeline source context info w rest := rfl
        rw [hG] at key
        obtain ⟨⟨tail0, htail0⟩, hok, hhd, hch⟩ := ih w
        have hm : mainEvs (runPipeline source context info v (d :: rest)).2 =
            ev :: mainEvs (runPipeline source context info w rest).2 := by
          rw [key]
          show mainEvs ([ev] ++ (runPipeline source context info w rest).2) = _
          rw [mainEvs_append]
          simp [mainEvs, hep]
        have hevnext : ev.next = Except.ok v := hnx
        have hevres : ev.result = Except.ok w := by rw [hres, hres1]
        have hev : evNames (ev :: mainEvs (runPipeline source context info w rest).2) =
            d.name :: evNames (mainEvs (runPipeline source context info w rest).2) := by
          simp [evNames, hnm]
        refine ⟨⟨tail0, ?_⟩, ?_, ?_, ?_⟩
        · rw [hm, hev, List.map_cons, htail0, List.cons_append]
        · rintro ⟨w2, hw2⟩
          rw [key] at hw2
          have hG2 := hok ⟨w2, hw2⟩
          rw [hm, hev, hG2, List.map_cons]
        · rw [hm]
          show some ev.next = some (Except.ok v)
          rw [hevnext]
        · rw [hm]
          refine List.chain'_cons'.mpr ⟨?_, hch⟩
          intro y hy
          have hy' : (mainEvs (runPipeline source context info w rest).2).head? = some y := hy
          have hhd2 := hhd
          rw [hy'] at hhd2
          simp only [Option.map_some'] at hhd2
          rw [hevres]
          exact Option.some.inj hhd2
      | error e =>
        rw [hres1, h2] at key
        have hf := foldl_pipelineStep_error source context info rest e
          ([ev] ++ catchEvents source d context info (Except.error e))
        have hm : mainEvs (runPipeline source context info v (d :: rest)).2 = [ev] := by
          rw [key, hf.2, mainEvs_append, mainEvs_catchEvents, List.append_nil]
          simp [mainEvs, hep]
        have h1f : (runPipeline source context info v (d :: rest)).1 = Except.error e := by
          rw [key]; exact hf.1
        refine ⟨⟨rest.map DirectiveNode.name, ?_⟩, ?_, ?_, ?_⟩
        · rw [hm]
          simp [evNames, hnm]
        · rintro ⟨w2, hw2⟩
          rw [h1f] at hw2
          exact absurd hw2 (by simp)
        · rw [hm]
          simp [hnx]
        · rw [hm]
          exact List.chain'_singleton ev

/-- If any directive left in the loop has a name no registered directive
matches, the chain ends rejected (either it already was, or the lookup
TypeError rejects it at that step). -/
theorem foldl_pipelineStep_unknown (source context : JSValue) (info : GraphQLResolveInfo) :
    ∀ (ds : List DirectiveNode) (acc : Except JSError JSValue × List CallEvent),
    (∃ d ∈ ds, lookupDirective info.schemaDirectives d.name = none) →
    ∃ e, (List.foldl (pipelineStep source context info) acc ds).1 = Except.error e := by
  intro ds
  induction ds with
  | nil =>
    rintro acc ⟨d, hd, _⟩
    exact absurd hd (List.not_mem_nil d)
  | cons d rest ih =>
    rintro acc ⟨d2, hd2, hun⟩
    rcases List.mem_cons.mp hd2 with heq | hmem
    · subst heq
      have hstep1 : ∃ e1, (pipelineStep source context info acc d2).1 = Except.error e1 := by
        cases hacc : acc.1 with
        | error e0 => exact ⟨e0, by simp [pipelineStep, hacc]⟩
        | ok v =>
          refine ⟨JSError.typeError "Cannot read property resolve of undefined", ?_⟩
          have hr := resolveWithDirective_lookup_none (fun _ => Except.ok v)
            source d2 context info hun
          simp [pipelineStep, hacc, hr]
      obtain ⟨e1, he1⟩ := hstep1
      refine ⟨e1, ?_⟩
      simp only [List.foldl_cons]
      have heta : pipelineStep source context info acc d2 =
          (Except.error e1, (pipelineStep source context info acc d2).2) := by
        rw [← he1]
      rw [heta]
      exact (foldl_pipelineStep_error source context info rest e1 _).1
    · simp only [List.foldl_cons]
      exact ih (pipelineStep source context info acc d) ⟨d2, hmem, hun⟩

/-- Every recorded transform invocation carries the rebound source, and
the context and info of the field resolution, unchanged. -/
theorem resolveWithDirective_events (next : Unit → Except JSError JSValue) (source : JSValue)
    (d : DirectiveNode) (context : JSValue) (info : GraphQLResolveInfo) :
    ∀ e ∈ (resolveWithDirective next source d context info).2,
      e.source = effectiveSource source info ∧ e.context = context ∧ e.info = info := by
  rcases resolveWithDirective_spec next source d context info with
    ⟨h2, _, _⟩ | ⟨ev, h2, _, _, _, _, hs, hc, hi⟩
  · rw [h2]
    intro e he
    exact absurd he (List.not_mem_nil e)
  · rw [h2]
    intro e he
    rw [List.mem_singleton] at he
    subst he
    exact ⟨hs, hc, hi⟩

theorem catchEvents_events (source : JSValue) (d : DirectiveNode) (context : JSValue)
    (info : GraphQLResolveInfo) (r : Except JSError JSValue) :
    ∀ e ∈ catchEvents source d context info r,
      e.source = effectiveSource source info ∧ e.context = context ∧ e.info = info := by
  cases r with
  | ok v =>
    intro e he
    exact absurd he (List.not_mem_nil e)
  | error err =>
    intro e he
    simp only [catchEvents, List.mem_map] at he
    obtain ⟨c, hc, rfl⟩ := he
    exact resolveWithDirective_events (fun _ => Except.error err) source d context info c hc

theorem pipelineStep_events (source context : JSValue) (info : GraphQLResolveInfo)
    (acc : Except JSError JSValue × List CallEvent) (d : DirectiveNode) :
    ∀ e ∈ (pipelineStep source context info acc d).2,
      e ∈ acc.2 ∨
        (e.source = effectiveSource source info ∧ e.context = context ∧ e.info = info) := by
  cases hacc : acc.1 with
  | error err =>
    intro e he
    simp only [pipelineStep, hacc] at he
    rw [List.mem_append] at he
    rcases he with h | h
    · exact Or.inl h
    · exact Or.inr (catchEvents_events source d context info (Except.error err) e h)
  | ok v =>
    intro e he
    simp only [pipelineStep, hacc] at he
    rw [List.mem_append, List.mem_append] at he
    rcases he with (h | h) | h
    · exact Or.inl h
    · exact Or.inr
        (resolveWithDirective_events (fun _ => Except.ok v) source d context info e h)
    · exact Or.inr (catchEvents_events source d context info _ e h)

theorem foldl_pipelineStep_events (source context : JSValue) (info : GraphQLResolveInfo) :
    ∀ (ds : List DirectiveNode) (acc : Except JSError JSValue × List CallEvent),
    ∀ e ∈ (List.foldl (pipelineStep source context info) acc ds).2,
      e ∈ acc.2 ∨
        (e.source = effectiveSource source info ∧ e.context = context ∧ e.info = info) := by
  intro ds
  induction ds with
  | nil =>
    intro acc e he
    exact Or.inl he
  | cons d rest ih =>
    intro acc e he
    simp only [List.foldl_cons] at he
    rcases ih (pipelineStep source context info acc d) e he with h | h
    · exact pipelineStep_events source context info acc d e h
    · exact Or.inr h

/-- Every transform invocation performed by the wrapped resolver receives
the rebound source of line 26 and the unchanged context and info. -/
theorem resolveMiddlewareWrapper_events (resolve? : Option Resolver)
    (dirs? : Option (List (String × JSValue))) (source : JSValue)
    (args : List (String × JSValue)) (context : JSValue) (info : GraphQLResolveInfo) :
    ∀ e ∈ (resolveMiddlewareWrapper resolve? dirs? source args context info).2,
      e.source = effectiveSource source info ∧ e.context = context ∧ e.info = info := by
  intro e he
  cases hh : ((parseSchemaDirectives (dirs?.getD []) ++ info.fieldDirectives).filter
      (fun d => !(DEFAULT_DIRECTIVES.contains d.name))).head? with
  | none =>
    simp only [resolveMiddlewareWrapper, hh] at he
    exact absurd he (List.not_mem_nil e)
  | some d0 =>
    simp only [resolveMiddlewareWrapper, hh] at he
    split at he
    · rw [List.mem_append] at he
      rcases he with h | h
      · exact resolveWithDirective_events _ source d0 context info e h
      · exact catchEvents_events source d0 context info _ e h
    · rcases foldl_pipelineStep_events source context info _ _ e he with h | h
      · rw [List.mem_append] at h
        rcases h with h | h
        · exact resolveWithDirective_events _ source d0 context info e h
        · exact catchEvents_events source d0 context info _ e h
      · exact h

/-! ### Graph walker lemmas -/

theorem contains_true_iff (l : List String) (a : String) : l.contains a = true ↔ a ∈ l := by
  simp [List.contains, List.elem_iff]

theorem typeRefMet_named (tm : List String) (m : String) :
    typeRefMet tm (FieldTypeRef.named m) = tm.contains m := rfl

theorem descendTarget_false (g : Graph) (t : FieldTypeRef) :
    descendTarget g false t = none := by
  cases t <;> rfl

theorem descendTarget_eq_some (g : Graph) (dw : Bool) (t : FieldTypeRef) (m : String)
    (h : descendTarget g dw t = some m) :
    t = FieldTypeRef.named m ∧ dw = true ∧ (lookupType g m).isSome := by
  cases t with
  | named n =>
    cases dw with
    | true =>
      by_cases hl : (lookupType g n).isSome
      · rw [descendTarget, if_pos hl] at h
        cases Option.some.inj h
        exact ⟨rfl, rfl, hl⟩
      · rw [descendTarget, if_neg hl] at h
        exact absurd h (by simp)
    | false => exact absurd h (by rw [descendTarget_false]; simp)
  | list t1 => exact absurd h (by cases dw <;> simp [descendTarget])
  | nonNull t1 => exact absurd h (by cases dw <;> simp [descendTarget])

theorem mem_typeNames_of_lookupType (g : Graph) (n : String)
    (h : (lookupType g n).isSome) : n ∈ typeNames g := by
  rw [lookupType] at h
  rw [Option.isSome_map'] at h
  rw [List.find?_isSome] at h
  obtain ⟨p, hp, hpn⟩ := h
  have : p.1 = n := by simpa using hpn
  rw [typeNames, List.mem_dedup]
  exact this ▸ List.mem_map_of_mem (fun q => q.1) hp

theorem lookupType_labels_nodup (g : Graph) (n : String)
    (fs : List (String × FieldTypeRef)) (hg : gLabelsNodup g)
    (h : lookupType g n = some fs) : (fs.map (fun q => q.1)).Nodup := by
  rw [lookupType] at h
  rw [Option.map_eq_some'] at h
  obtain ⟨p, hp, hfs⟩ := h
  exact hfs ▸ hg p (List.mem_of_find?_eq_some hp)

theorem unvisitedCount_mono (g : Graph) {tm tm' : List String} (h : tm ⊆ tm') :
    unvisitedCount g tm' ≤ unvisitedCount g tm := by
  apply List.Sublist.length_le
  apply List.monotone_filter_right
  intro a ha
  simp only [Bool.not_eq_true'] at ha ⊢
  rw [← Bool.not_eq_true] at ha ⊢
  rw [contains_true_iff] at ha ⊢
  exact fun hmem => ha (h hmem)

theorem length_filter_uncontained_cons_lt (a : String) (tm : List String) (hat : a ∉ tm) :
    ∀ (l : List String), a ∈ l →
    (l.filter (fun x => !((a :: tm).contains x))).length <
      (l.filter (fun x => !(tm.contains x))).length := by
  intro l
  induction l with
  | nil => intro hal; exact absurd hal (List.not_mem_nil a)
  | cons b t ihl =>
    intro hal
    by_cases hba : b = a
    · subst hba
      have h1 : (!((b :: tm).contains b)) = false := by
        simp [List.contains_cons]
      have h2 : (!(tm.contains b)) = true := by
        simp only [Bool.not_eq_true']
        rw [← Bool.not_eq_true, contains_true_iff]
        exact hat
      rw [List.filter_cons, h1, List.filter_cons, h2]
      refine Nat.lt_succ_of_le (List.Sublist.length_le ?_)
      apply List.monotone_filter_right
      intro x hx
      simp only [Bool.not_eq_true', List.contains_cons, Bool.or_eq_false_iff] at hx
      rw [Bool.not_eq_true', hx.2]
    · have hal2 : a ∈ t := by
        rcases List.mem_cons.mp hal with h | h
        · exact absurd h.symm hba
        · exact h
      have hpred : ((a :: tm).contains b) = (tm.contains b) := by
        have : (b == a) = false := by
          rw [beq_eq_false_iff_ne]
          exact hba
        simp only [List.contains_cons, this, Bool.false_or]
      rw [List.filter_cons, List.filter_cons, hpred]
      cases hcb : tm.contains b with
      | true => simpa [hcb] using ihl hal2
      | false => simpa [hcb] using Nat.succ_lt_succ (ihl hal2)

theorem unvisitedCount_cons_lt (g : Graph) (tm : List String) (m : String)
    (hm : m ∈ typeNames g) (hnt : m ∉ tm) :
    unvisitedCount g (m :: tm) < unvisitedCount g tm :=
  length_filter_uncontained_cons_lt m tm hnt (typeNames g) hm

/-- The visited set only grows through the loop. -/
theorem wrapLoopWith_subset (g : Graph) (dw : Bool)
    (walk : Option String → List String → Option (List String × List (String × String)))
    (hsub : ∀ root tm r, walk root tm = some r → tm ⊆ r.1) :
    ∀ (fields : List (String × FieldTypeRef)) (cur : String) (tm : List String)
      (r : List String × List (String × String)),
    wrapLoopWith g dw walk fields cur tm = some r → tm ⊆ r.1 := by
  intro fields
  induction fields with
  | nil =>
    intro cur tm r h
    simp only [wrapLoopWith] at h
    cases Option.some.inj h
    exact fun a ha => ha
  | cons fld rest ih =>
    obtain ⟨label, tref⟩ := fld
    intro cur tm r h
    simp only [wrapLoopWith] at h
    by_cases hmet : typeRefMet tm tref = true
    · rw [if_pos hmet] at h
      exact ih cur tm r h
    · rw [if_neg hmet] at h
      cases hdt : descendTarget g dw tref with
      | some m =>
        rw [hdt] at h
        rw [Option.bind_eq_some] at h
        obtain ⟨r1, hr1, h2⟩ := h
        rw [Option.map_eq_some'] at h2
        obtain ⟨r2, hr2, h3⟩ := h2
        subst h3
        have s1 := hsub (some m) tm r1 hr1
        have s2 := ih cur r1.1 r2 hr2
        exact fun a ha => s2 (s1 ha)
      | none =>
        rw [hdt] at h
        rw [Option.map_eq_some'] at h
        obtain ⟨r2, hr2, h3⟩ := h
        subst h3
        exact ih cur tm r2 hr2

/-- The visited set only grows through the walk. -/
theorem wrapFieldsWithMiddleware_subset (g : Graph) (dw : Bool) :
    ∀ (fuel : Nat) (root : Option String) (tm : List String)
      (r : List String × List (String × String)),
    wrapFieldsWithMiddleware g dw fuel root tm = some r → tm ⊆ r.1 := by
  intro fuel
  induction fuel with
  | zero =>
    intro root tm r h
    exact absurd h (by simp [wrapFieldsWithMiddleware])
  | succ f ih =>
    intro root tm r h
    cases root with
    | none =>
      simp only [wrapFieldsWithMiddleware] at h
      cases Option.some.inj h
      exact fun a ha => ha
    | some n =>
      simp only [wrapFieldsWithMiddleware] at h
      have hstep := wrapLoopWith_subset g dw (wrapFieldsWithMiddleware g dw f) ih
        ((lookupType g n).getD []) n (n :: tm) r h
      exact fun a ha => hstep (List.mem_cons_of_mem n ha)

/-- The loop completes whenever the recursive walk completes on every
not-yet-visited type with as many unvisited names left. -/
theorem wrapLoopWith_isSome (g : Graph) (dw : Bool)
    (walk : Option String → List String → Option (List String × List (String × String)))
    (K : Nat)
    (hwalk : ∀ m tm2, m ∈ typeNames g → m ∉ tm2 → unvisitedCount g tm2 ≤ K →
      (walk (some m) tm2).isSome)
    (hsub : ∀ root tm r, walk root tm = some r → tm ⊆ r.1) :
    ∀ (fields : List (String × FieldTypeRef)) (cur : String) (tm : List String),
    unvisitedCount g tm ≤ K → (wrapLoopWith g dw walk fields cur tm).isSome := by
  intro fields
  induction fields with
  | nil =>
    intro cur tm _
    simp [wrapLoopWith]
  | cons fld rest ih =>
    obtain ⟨label, tref⟩ := fld
    intro cur tm htm
    simp only [wrapLoopWith]
    by_cases hmet : typeRefMet tm tref = true
    · rw [if_pos hmet]
      exact ih cur tm htm
    · rw [if_neg hmet]
      cases hdt : descendTarget g dw tref with
      | none =>
        show (Option.map (fun r2 => (r2.1, (cur, label) :: r2.2))
          (wrapLoopWith g dw walk rest cur tm)).isSome = true
        rw [Option.isSome_map']
        exact ih cur tm htm
      | some m =>
        obtain ⟨htref, hdw, hlk⟩ := descendTarget_eq_some g dw tref m hdt
        have hnm : m ∉ tm := by
          subst htref
          rw [typeRefMet_named] at hmet
          intro hmem
          exact hmet ((contains_true_iff tm m).mpr hmem)
        have hmem := mem_typeNames_of_lookupType g m hlk
        obtain ⟨r1, hr1⟩ := Option.isSome_iff_exists.mp (hwalk m tm hmem hnm htm)
        show ((walk (some m) tm).bind (fun r1 =>
          Option.map (fun r2 => (r2.1, (cur, label) :: (r1.2 ++ r2.2)))
            (wrapLoopWith g dw walk rest cur r1.1))).isSome = true
        rw [hr1]
        simp only [Option.some_bind, Option.isSome_map']
        have hsub1 := hsub (some m) tm r1 hr1
        exact ih cur r1.1 (le_trans (unvisitedCount_mono g hsub1) htm)

/-- The walk started at a not-yet-visited type of the graph completes
whenever the fuel is at least the number of unvisited type names. -/
theorem wrapFieldsWithMiddleware_isSome_aux (g : Graph) (dw : Bool) :
    ∀ (fuel : Nat) (m : String) (tm : List String),
    m ∈ typeNames g → m ∉ tm → unvisitedCount g tm ≤ fuel →
    (wrapFieldsWithMiddleware g dw fuel (some m) tm).isSome := by
  intro fuel
  induction fuel with
  | zero =>
    intro m tm hmem hnm htm
    exfalso
    have hlt := unvisitedCount_cons_lt g tm m hmem hnm
    omega
  | succ f ih =>
    intro m tm hmem hnm htm
    simp only [wrapFieldsWithMiddleware]
    apply wrapLoopWith_isSome g dw (wrapFieldsWithMiddleware g dw f) f
      (fun m2 tm2 h1 h2 h3 => ih m2 tm2 h1 h2 h3)
      (wrapFieldsWithMiddleware_subset g dw f)
    have hlt := unvisitedCount_cons_lt g tm m hmem hnm
    omega

/-- Termination of the graph walk: any fuel strictly larger than the
number of unvisited type names makes the walk complete, on every graph,
cyclic ones included. -/
theorem wrapFieldsWithMiddleware_isSome (g : Graph) (dw : Bool) (fuel : Nat)
    (root : Option String) (tm : List String) (h : unvisitedCount g tm < fuel) :
    (wrapFieldsWithMiddleware g dw fuel root tm).isSome := by
  cases fuel with
  | zero => omega
  | succ f =>
    cases root with
    | none => simp [wrapFieldsWithMiddleware]
    | some n =>
      simp only [wrapFieldsWithMiddleware]
      apply wrapLoopWith_isSome g dw (wrapFieldsWithMiddleware g dw f) f
        (fun m2 tm2 h1 h2 h3 => wrapFieldsWithMiddleware_isSome_aux g dw f m2 tm2 h1 h2 h3)
        (wrapFieldsWithMiddleware_subset g dw f)
      have hmono : unvisitedCount g (n :: tm) ≤ unvisitedCount g tm :=
        unvisitedCount_mono g (fun a ha => List.mem_cons_of_mem n ha)
      omega

/-- The wraps recorded by the loop: each is either a field of the current
type (with a label from the current field list) or comes from a
recursive descent into a type that was unvisited when the loop reached
it; the whole list is duplicate-free. -/
theorem wrapLoopWith_wraps (g : Graph) (dw : Bool)
    (walk : Option String → List String → Option (List String × List (String × String)))
    (hsub : ∀ root tm r, walk root tm = some r → tm ⊆ r.1)
    (hW2 : ∀ m tm tm2 ws, m ∉ tm → walk (some m) tm = some (tm2, ws) →
      ws.Nodup ∧ ∀ w ∈ ws, w.1 ∉ tm ∧ w.1 ∈ tm2) :
    ∀ (fields : List (String × FieldTypeRef)) (cur : String) (tm tm2 : List String)
      (ws : List (String × String)),
    cur ∈ tm → (fields.map (fun q => q.1)).Nodup →
    wrapLoopWith g dw walk fields cur tm = some (tm2, ws) →
    ws.Nodup ∧ ∀ w ∈ ws,
      (w.1 = cur ∧ w.2 ∈ fields.map (fun q => q.1)) ∨ (w.1 ∉ tm ∧ w.1 ∈ tm2) := by
  intro fields
  induction fields with
  | nil =>
    intro cur tm tm2 ws hcur hnodup h
    simp only [wrapLoopWith] at h
    cases Option.some.inj h
    exact ⟨List.nodup_nil, fun w hw => absurd hw (List.not_mem_nil w)⟩
  | cons fld rest ih =>
    obtain ⟨label, tref⟩ := fld
    intro cur tm tm2 ws hcur hnodup h
    obtain ⟨hl1, hl2⟩ := List.nodup_cons.mp hnodup
    simp only [wrapLoopWith] at h
    by_cases hmet : typeRefMet tm tref = true
    · rw [if_pos hmet] at h
      obtain ⟨hn, hp⟩ := ih cur tm tm2 ws hcur hl2 h
      refine ⟨hn, fun w hw => ?_⟩
      rcases hp w hw with ⟨h1, h2⟩ | h12
      · exact Or.inl ⟨h1, List.mem_cons_of_mem label h2⟩
      · exact Or.inr h12
    · rw [if_neg hmet] at h
      cases hdt : descendTarget g dw tref with
      | none =>
        rw [hdt] at h
        rw [Option.map_eq_some'] at h
        obtain ⟨r2, hr2, heq⟩ := h
        obtain ⟨tm2x, ws2⟩ := r2
        cases heq
        obtain ⟨ihn, ihp⟩ := ih cur tm tm2x ws2 hcur hl2 hr2
        constructor
        · rw [List.nodup_cons]
          refine ⟨?_, ihn⟩
          intro hmemw
          rcases ihp (cur, label) hmemw with ⟨_, hlab⟩ | ⟨hnot, _⟩
          · exact hl1 hlab
          · exact hnot hcur
        · intro w hw
          rcases List.mem_cons.mp hw with rfl | hw2
          · exact Or.inl ⟨rfl, by simp⟩
          · rcases ihp w hw2 with ⟨h1, h2⟩ | h12
            · exact Or.inl ⟨h1, List.mem_cons_of_mem label h2⟩
            · exact Or.inr h12
      | some m =>
        rw [hdt] at h
        rw [Option.bind_eq_some] at h
        obtain ⟨r1, hr1, h2⟩ := h
        rw [Option.map_eq_some'] at h2
        obtain ⟨r2, hr2, heq⟩ := h2
        obtain ⟨tm1, ws1⟩ := r1
        obtain ⟨tm2x, ws2⟩ := r2
        cases heq
        obtain ⟨htref, hdw, hlk⟩ := descendTarget_eq_some g dw tref m hdt
        have hnm : m ∉ tm := by
          subst htref
          rw [typeRefMet_named] at hmet
          intro hmem
          exact hmet ((contains_true_iff tm m).mpr hmem)
        obtain ⟨hn1, hp1⟩ := hW2 m tm tm1 ws1 hnm hr1
        have hsub1 : tm ⊆ tm1 := hsub (some m) tm (tm1, ws1) hr1
        have hcur1 : cur ∈ tm1 := hsub1 hcur
        obtain ⟨hn2, hp2⟩ := ih cur tm1 tm2x ws2 hcur1 hl2 hr2
        have hsub2 : tm1 ⊆ tm2x :=
          wrapLoopWith_subset g dw walk hsub rest cur tm1 (tm2x, ws2) hr2
        constructor
        · rw [List.nodup_cons]
          constructor
          · intro hmemw
            rw [List.mem_append] at hmemw
            rcases hmemw with hma | hmb
            · exact (hp1 (cur, label) hma).1 hcur
            · rcases hp2 (cur, label) hmb with ⟨_, hlab⟩ | ⟨hnot, _⟩
              · exact hl1 hlab
              · exact hnot hcur1
          · rw [List.nodup_append]
            refine ⟨hn1, hn2, ?_⟩
            intro w hwa hwb
            have hin1 : w.1 ∈ tm1 := (hp1 w hwa).2
            rcases hp2 w hwb with ⟨hq, _⟩ | ⟨hnot, _⟩
            · exact (hp1 w hwa).1 (by rw [hq]; exact hcur)
            · exact hnot hin1
        · intro w hw
          rcases List.mem_cons.mp hw with rfl | hw2
          · exact Or.inl ⟨rfl, by simp⟩
          · rw [List.mem_append] at hw2
            rcases hw2 with hma | hmb
            · exact Or.inr ⟨(hp1 w hma).1, hsub2 (hp1 w hma).2⟩
            · rcases hp2 w hmb with ⟨h1, h2⟩ | ⟨h1, h2⟩
              · exact Or.inl ⟨h1, List.mem_cons_of_mem label h2⟩
              · exact Or.inr ⟨fun hmem => h1 (hsub1 hmem), h2⟩

/-- Wraps of a walk rooted at a not-yet-visited type: duplicate-free, and
every wrapped field belongs to a type that was freshly visited. -/
theorem wrapFieldsWithMiddleware_wraps (g : Graph) (dw : Bool) (hg : gLabelsNodup g) :
    ∀ (fuel : Nat) (m : String) (tm tm2 : List String) (ws : List (String × String)),
    m ∉ tm → wrapFieldsWithMiddleware g dw fuel (some m) tm = some (tm2, ws) →
    ws.Nodup ∧ ∀ w ∈ ws, w.1 ∉ tm ∧ w.1 ∈ tm2 := by
  intro fuel
  induction fuel with
  | zero =>
    intro m tm tm2 ws hnm h
    exact absurd h (by simp [wrapFieldsWithMiddleware])
  | succ f ih =>
    intro m tm tm2 ws hnm h
    simp only [wrapFieldsWithMiddleware] at h
    have hfl : (((lookupType g m).getD []).map (fun q => q.1)).Nodup := by
      cases hlk : lookupType g m with
      | none => simp
      | some fs => simpa using lookupType_labels_nodup g m fs hg hlk
    obtain ⟨hn, hp⟩ := wrapLoopWith_wraps g dw (wrapFieldsWithMiddleware g dw f)
      (wrapFieldsWithMiddleware_subset g dw f)
      (fun m2 tmx tm2x wsx hx hy => ih m2 tmx tm2x wsx hx hy)
      ((lookupType g m).getD []) m (m :: tm) tm2 ws (List.mem_cons_self m tm) hfl h
    have hsubl : (m :: tm) ⊆ tm2 :=
      wrapLoopWith_subset g dw (wrapFieldsWithMiddleware g dw f)
        (wrapFieldsWithMiddleware_subset g dw f)
        ((lookupType g m).getD []) m (m :: tm) (tm2, ws) h
    refine ⟨hn, fun w hw => ?_⟩
    rcases hp w hw with ⟨h1, _⟩ | ⟨h1, h2⟩
    · exact ⟨by rw [h1]; exact hnm, by rw [h1]; exact hsubl (List.mem_cons_self m tm)⟩
    · exact ⟨fun hmem => h1 (List.mem_cons_of_mem m hmem), h2⟩

/-- Every field resolver is replaced at most once by one walk: the list
of wrapped (type, label) pairs is duplicate-free. -/
theorem wrapFieldsWithMiddleware_nodup (g : Graph) (dw : Bool) (hg : gLabelsNodup g)
    (fuel : Nat) (n : String) (tm tm2 : List String) (ws : List (String × String))
    (h : wrapFieldsWithMiddleware g dw fuel (some n) tm = some (tm2, ws)) :
    ws.Nodup := by
  cases fuel with
  | zero => exact absurd h (by simp [wrapFieldsWithMiddleware])
  | succ f =>
    simp only [wrapFieldsWithMiddleware] at h
    have hfl : (((lookupType g n).getD []).map (fun q => q.1)).Nodup := by
      cases hlk : lookupType g n with
      | none => simp
      | some fs => simpa using lookupType_labels_nodup g n fs hg hlk
    exact (wrapLoopWith_wraps g dw (wrapFieldsWithMiddleware g dw f)
      (wrapFieldsWithMiddleware_subset g dw f)
      (fun m2 tmx tm2x wsx hx hy =>
        wrapFieldsWithMiddleware_wraps g dw hg f m2 tmx tm2x wsx hx hy)
      ((lookupType g n).getD []) n (n :: tm) tm2 ws (List.mem_cons_self n tm) hfl h).1

/-- With deepWrap false the loop never recurses: it wraps exactly the
fields whose type name is not in the visited set, in order, and leaves
the visited set unchanged. -/
theorem wrapLoopWith_shallow (g : Graph)
    (walk : Option String → List String → Option (List String × List (String × String))) :
    ∀ (fields : List (String × FieldTypeRef)) (cur : String) (tm : List String),
    wrapLoopWith g false walk fields cur tm =
      some (tm, (fields.filter (fun p => !(typeRefMet tm p.2))).map (fun p => (cur, p.1))) := by
  intro fields
  induction fields with
  | nil => intro cur tm; rfl
  | cons fld rest ih =>
    obtain ⟨label, tref⟩ := fld
    intro cur tm
    simp only [wrapLoopWith, descendTarget_false]
    by_cases hmet : typeRefMet tm tref = true
    · rw [if_pos hmet, ih, List.filter_cons]
      simp [hmet]
    · rw [if_neg hmet, ih, List.filter_cons]
      simp [hmet]

/-- Unfolding of the wrapped resolver when no custom directive is located
(line 100 of the source). -/
theorem resolveMiddlewareWrapper_eq_none (resolve? : Option Resolver)
    (dirs? : Option (List (String × JSValue))) (source : JSValue)
    (args : List (String × JSValue)) (context : JSValue) (info : GraphQLResolveInfo)
    (hh : ((parseSchemaDirectives (dirs?.getD []) ++ info.fieldDirectives).filter
        (fun d => !(DEFAULT_DIRECTIVES.contains d.name))).head? = none) :
    resolveMiddlewareWrapper resolve? dirs? source args context info =
      ((resolve?.getD defaultResolveFn) source args context info, []) := by
  simp only [resolveMiddlewareWrapper, hh]

/-- Unfolding of the wrapped resolver when the first custom directive is
located (lines 103-147 of the source). -/
theorem resolveMiddlewareWrapper_eq_some (resolve? : Option Resolver)
    (dirs? : Option (List (String × JSValue))) (source : JSValue)
    (args : List (String × JSValue)) (context : JSValue) (info : GraphQLResolveInfo)
    (d0 : DirectiveNode)
    (hh : ((parseSchemaDirectives (dirs?.getD []) ++ info.fieldDirectives).filter
        (fun d => !(DEFAULT_DIRECTIVES.contains d.name))).head? = some d0) :
    resolveMiddlewareWrapper resolve? dirs? source args context info =
      (if (parseSchemaDirectives (dirs?.getD []) ++ info.fieldDirectives).length ≤ 1 then
        ((resolveWithDirective
            (fun _ => (resolve?.getD defaultResolveFn) source args context info)
            source d0 context info).1,
          (resolveWithDirective
            (fun _ => (resolve?.getD defaultResolveFn) source args context info)
            source d0 context info).2 ++
            catchEvents source d0 context info
              (resolveWithDirective
                (fun _ => (resolve?.getD defaultResolveFn) source args context info)
                source d0 context info).1)
      else
        List.foldl (pipelineStep source context info)
          ((resolveWithDirective
              (fun _ => (resolve?.getD defaultResolveFn) source args context info)
              source d0 context info).1,
            (resolveWithDirective
              (fun _ => (resolve?.getD defaultResolveFn) source args context info)
              source d0 context info).2 ++
              catchEvents source d0 context info
                (resolveWithDirective
                  (fun _ => (resolve?.getD defaultResolveFn) source args context info)
                  source d0 context info).1)
          ((parseSchemaDirectives (dirs?.getD []) ++ info.fieldDirectives).drop 1)) := by
  simp only [resolveMiddlewareWrapper, hh]

/-- The wrapped resolver, once a first custom directive is located,
equals the split-out chain. -/
theorem resolveMiddlewareWrapper_eq_chain (resolve? : Option Resolver)
    (dirs? : Option (List (String × JSValue))) (source : JSValue)
    (args : List (String × JSValue)) (context : JSValue) (info : GraphQLResolveInfo)
    (d0 : DirectiveNode) (dtail : List DirectiveNode)
    (hd0 : parseSchemaDirectives (dirs?.getD []) ++ info.fieldDirectives = d0 :: dtail)
    (hh : ((parseSchemaDirectives (dirs?.getD []) ++ info.fieldDirectives).filter
        (fun d => !(DEFAULT_DIRECTIVES.contains d.name))).head? = some d0) :
    resolveMiddlewareWrapper resolve? dirs? source args context info =
      wrapperChain source context info
        (fun _ => (resolve?.getD defaultResolveFn) source args context info) d0 dtail := by
  rw [resolveMiddlewareWrapper_eq_some resolve? dirs? source args context info d0 hh, hd0]
  rfl

/-- Behaviour of the located chain for an arbitrary next closure orig:
the main-pipeline invocations form a prefix of the unfiltered directive
list headed by d0; a fulfilled outcome means every listed directive was
invoked, in order; the first main invocation's next promise is the
promise orig produces; and each subsequent main invocation's next
promise is the previous invocation's result. -/
theorem wrapperChain_spec (source context : JSValue) (info : GraphQLResolveInfo)
    (orig : Unit → Except JSError JSValue) (d0 : DirectiveNode)
    (dtail : List DirectiveNode) :
    (∃ tail, (d0 :: dtail).map DirectiveNode.name =
        evNames (mainEvs (wrapperChain source context info orig d0 dtail).2) ++ tail) ∧
    ((∃ w, (wrapperChain source context info orig d0 dtail).1 = Except.ok w) →
        evNames (mainEvs (wrapperChain source context info orig d0 dtail).2) =
          (d0 :: dtail).map DirectiveNode.name) ∧
    ((mainEvs (wrapperChain source context info orig d0 dtail).2).head?.map CallEvent.next =
        (mainEvs (wrapperChain source context info orig d0 dtail).2).head?.map
          (fun _ => orig ())) ∧
    List.Chain' (fun a b => b.next = a.result)
      (mainEvs (wrapperChain source context info orig d0 dtail).2) := by
  cases dtail with
  | nil =>
    have hW : wrapperChain source context info orig d0 [] =
        ((resolveWithDirective orig source d0 context info).1,
          (resolveWithDirective orig source d0 context info).2 ++
            catchEvents source d0 context info
              (resolveWithDirective orig source d0 context info).1) := by
      simp [wrapperChain]
    rcases resolveWithDirective_spec orig source d0 context info with
      ⟨h2, msg, h1⟩ | ⟨ev, h2, hep, hnm, hnx, hres, _, _, _⟩
    · have hm : mainEvs (wrapperChain source context info orig d0 []).2 = [] := by
        rw [hW]
        show mainEvs ((resolveWithDirective orig source d0 context info).2 ++
          catchEvents source d0 context info
            (resolveWithDirective orig source d0 context info).1) = []
        rw [h2, mainEvs_append, mainEvs_catchEvents]
        rfl
      have h1f : (wrapperChain source context info orig d0 []).1 =
          Except.error (JSError.typeError msg) := by
        rw [hW]
        exact h1
      refine ⟨⟨[d0].map DirectiveNode.name, by rw [hm]; rfl⟩, ?_,
        by rw [hm]; rfl, by rw [hm]; exact List.chain'_nil⟩
      rintro ⟨w, hw⟩
      rw [h1f] at hw
      exact absurd hw (by simp)
    · have hm : mainEvs (wrapperChain source context info orig d0 []).2 = [ev] := by
        rw [hW]
        show mainEvs ((resolveWithDirective orig source d0 context info).2 ++
          catchEvents source d0 context info
            (resolveWithDirective orig source d0 context info).1) = [ev]
        rw [h2, mainEvs_append, mainEvs_catchEvents, List.append_nil]
        simp [mainEvs, hep]
      refine ⟨⟨[], ?_⟩, ?_, ?_, ?_⟩
      · rw [hm]
        simp [evNames, hnm]
      · intro _
        rw [hm]
        simp [evNames, hnm]
      · rw [hm]
        show some ev.next = some (orig ())
        rw [hnx]
      · rw [hm]
        exact List.chain'_singleton ev
  | cons d1 dtail2 =>
    have hlen : ¬ ((d0 :: d1 :: dtail2).length ≤ 1) := by
      rw [List.length_cons, List.length_cons]
      omega
    have hW : wrapperChain source context info orig d0 (d1 :: dtail2) =
        ((List.foldl (pipelineStep source context info)
            ((resolveWithDirective orig source d0 context info).1, []) (d1 :: dtail2)).1,
          ((resolveWithDirective orig source d0 context info).2 ++
            catchEvents source d0 context info
              (resolveWithDirective orig source d0 context info).1) ++
            (List.foldl (pipelineStep source context info)
              ((resolveWithDirective orig source d0 context info).1, []) (d1 :: dtail2)).2) := by
      rw [wrapperChain, if_neg hlen]
      rw [foldl_pipelineStep_append source context info (d1 :: dtail2)
        ((resolveWithDirective orig source d0 context info).1,
          (resolveWithDirective orig source d0 context info).2 ++
            catchEvents source d0 context info
              (resolveWithDirective orig source d0 context info).1)]
    rcases resolveWithDirective_spec orig source d0 context info with
      ⟨h2, msg, h1⟩ | ⟨ev, h2, hep, hnm, hnx, hres, _, _, _⟩
    · rw [h1] at hW
      obtain ⟨hf1, hf2⟩ := foldl_pipelineStep_error source context info (d1 :: dtail2)
        (JSError.typeError msg) []
      have hm : mainEvs (wrapperChain source context info orig d0 (d1 :: dtail2)).2 = [] := by
        rw [hW]
        show mainEvs (((resolveWithDirective orig source d0 context info).2 ++
          catchEvents source d0 context info (Except.error (JSError.typeError msg))) ++ _) = []
        rw [mainEvs_append, mainEvs_append, mainEvs_catchEvents, hf2, h2]
        rfl
      have h1f : (wrapperChain source context info orig d0 (d1 :: dtail2)).1 =
          Except.error (JSError.typeError msg) := by
        rw [hW]
        exact hf1
      refine ⟨⟨(d0 :: d1 :: dtail2).map DirectiveNode.name, by rw [hm]; rfl⟩, ?_,
        by rw [hm]; rfl, by rw [hm]; exact List.chain'_nil⟩
      rintro ⟨w, hw⟩
      rw [h1f] at hw
      exact absurd hw (by simp)
    · cases hres1 : (resolveWithDirective orig source d0 context info).1 with
      | error e =>
        rw [hres1] at hW
        obtain ⟨hf1, hf2⟩ := foldl_pipelineStep_error source context info (d1 :: dtail2) e []
        have hm : mainEvs (wrapperChain source context info orig d0 (d1 :: dtail2)).2 =
            [ev] := by
          rw [hW]
          show mainEvs (((resolveWithDirective orig source d0 context info).2 ++
            catchEvents source d0 context info (Except.error e)) ++ _) = [ev]
          rw [mainEvs_append, mainEvs_append, mainEvs_catchEvents, hf2, h2]
          simp [mainEvs, hep]
        have h1f : (wrapperChain source context info orig d0 (d1 :: dtail2)).1 =
            Except.error e := by
          rw [hW]
          exact hf1
        refine ⟨⟨(d1 :: dtail2).map DirectiveNode.name, ?_⟩, ?_, ?_, ?_⟩
        · rw [hm]
          simp [evNames, hnm]
        · rintro ⟨w, hw⟩
          rw [h1f] at hw
          exact absurd hw (by simp)
        · rw [hm]
          show some ev.next = some (orig ())
          rw [hnx]
        · rw [hm]
          exact List.chain'_singleton ev
      | ok w =>
        rw [hres1] at hW
        have hc : catchEvents source d0 context info (Except.ok w) = [] := rfl
        rw [hc, h2, List.append_nil] at hW
        have hF : List.foldl (pipelineStep source context info) (Except.ok w, [])
            (d1 :: dtail2) = runPipeline source context info w (d1 :: dtail2) := rfl
        rw [hF] at hW
        obtain ⟨⟨tail0, htail0⟩, hok, hhd, hch⟩ :=
          runPipeline_spec source context info (d1 :: dtail2) w
        have hm : mainEvs (wrapperChain source context info orig d0 (d1 :: dtail2)).2 =
            ev :: mainEvs (runPipeline source context info w (d1 :: dtail2)).2 := by
          rw [hW]
          show mainEvs ([ev] ++ (runPipeline source context info w (d1 :: dtail2)).2) = _
          rw [mainEvs_append]
          simp [mainEvs, hep]
        have hevres : ev.result = Except.ok w := by rw [hres, hres1]
        have hev : evNames (ev :: mainEvs (runPipeline source context info w
            (d1 :: dtail2)).2) =
            d0.name :: evNames (mainEvs (runPipeline source context info w
              (d1 :: dtail2)).2) := by
          simp [evNames, hnm]
        refine ⟨⟨tail0, ?_⟩, ?_, ?_, ?_⟩
        · rw [hm, hev, List.map_cons, htail0, List.cons_append]
        · rintro ⟨w2, hw2⟩
          rw [hW] at hw2
          have hG2 := hok ⟨w2, hw2⟩
          rw [hm, hev, hG2]
          simp
        · rw [hm]
          show some ev.next = some (orig ())
          rw [hnx]
        · rw [hm]
          refine List.chain'_cons'.mpr ⟨?_, hch⟩
          intro y hy
          have hy' : (mainEvs (runPipeline source context info w (d1 :: dtail2)).2).head? =
              some y := hy
          have hhd2 := hhd
          rw [hy'] at hhd2
          simp only [Option.map_some'] at hhd2
          rw [hevres]
          exact Option.some.inj hhd2

/-! ### Claim theorems -/

/-- C1, counterexample.  The claim says the wrapped resolver executes the
located pipeline (static then syntactic invocations, built-ins excluded)
in order.  With query-text directives @skip @duplicate the located
pipeline is [duplicate], yet the wrapped resolver invokes the duplicate
transform twice: the first non-built-in invocation seeds the chain, but
the loop then runs over the tail of the UNFILTERED list, which still
contains the duplicate node.  Execution does not match the pipeline
sequence. -/
theorem c1_counterexample :
    evNames (mainEvs (resolveMiddlewareWrapper (some rTest) none
        JSValue.null [] JSValue.null infoSkipDup).2) = ["duplicate", "duplicate"] ∧
    ((parseSchemaDirectives ((none : Option (List (String × JSValue))).getD []) ++
        infoSkipDup.fieldDirectives).filter
        (fun d => !(DEFAULT_DIRECTIVES.contains d.name))).map DirectiveNode.name =
      ["duplicate"] ∧
    (["duplicate", "duplicate"] : List String) ≠ ["duplicate"] :=
  ⟨rfl, rfl, by decide⟩

/-- C1, amended.  Provided no attached invocation (static or syntactic)
bears a built-in name, the wrapped resolver executes the transforms of
the attached invocations in order, static nodes first then syntactic
ones: the executed names are a prefix of the attached sequence, equal to
the whole sequence whenever the wrapped resolver fulfils; the first
step's next closure produces the original resolver's promise; and each
subsequent step's next closure produces the previous step's result. -/
theorem c1_amended (r : Resolver) (dirs? : Option (List (String × JSValue)))
    (source : JSValue) (args : List (String × JSValue)) (context : JSValue)
    (info : GraphQLResolveInfo)
    (hnb : ∀ d ∈ parseSchemaDirectives (dirs?.getD []) ++ info.fieldDirectives,
        DEFAULT_DIRECTIVES.contains d.name = false)
    (hne : parseSchemaDirectives (dirs?.getD []) ++ info.fieldDirectives ≠ []) :
    (∃ tail, (parseSchemaDirectives (dirs?.getD []) ++ info.fieldDirectives).map
          DirectiveNode.name =
        evNames (mainEvs (resolveMiddlewareWrapper (some r) dirs? source args context
          info).2) ++ tail) ∧
    ((∃ v, (resolveMiddlewareWrapper (some r) dirs? source args context info).1 =
          Except.ok v) →
        evNames (mainEvs (resolveMiddlewareWrapper (some r) dirs? source args context
          info).2) =
          (parseSchemaDirectives (dirs?.getD []) ++ info.fieldDirectives).map
            DirectiveNode.name) ∧
    ((mainEvs (resolveMiddlewareWrapper (some r) dirs? source args context
        info).2).head?.map CallEvent.next =
      (mainEvs (resolveMiddlewareWrapper (some r) dirs? source args context
        info).2).head?.map (fun _ => r source args context info)) ∧
    List.Chain' (fun a b => b.next = a.result)
      (mainEvs (resolveMiddlewareWrapper (some r) dirs? source args context info).2) := by
  cases hd0 : parseSchemaDirectives (dirs?.getD []) ++ info.fieldDirectives with
  | nil => exact absurd hd0 hne
  | cons d0 dtail =>
    have hfilter : (parseSchemaDirectives (dirs?.getD []) ++ info.fieldDirectives).filter
        (fun d => !(DEFAULT_DIRECTIVES.contains d.name)) =
        parseSchemaDirectives (dirs?.getD []) ++ info.fieldDirectives := by
      rw [List.filter_eq_self]
      intro a ha
      show (!(DEFAULT_DIRECTIVES.contains a.name)) = true
      rw [hnb a ha]
      rfl
    have hh : ((parseSchemaDirectives (dirs?.getD []) ++ info.fieldDirectives).filter
        (fun d => !(DEFAULT_DIRECTIVES.contains d.name))).head? = some d0 := by
      rw [hfilter, hd0]
      rfl
    have hchain := resolveMiddlewareWrapper_eq_chain (some r) dirs? source args context
      info d0 dtail hd0 hh
    rw [hchain]
    have hspec := wrapperChain_spec source context info
      (fun _ => ((some r).getD defaultResolveFn) source args context info) d0 dtail
    exact ⟨hspec.1, hspec.2.1, hspec.2.2.1, hspec.2.2.2⟩

/-- C1, witness for the amended theorem: field with @duplicate @duplicate
attached, both invoked, in order, chained on the original value. -/
theorem c1_amended_witness :
    (∃ tail, (parseSchemaDirectives ((none : Option (List (String × JSValue))).getD [])
          ++ infoDupDup.fieldDirectives).map DirectiveNode.name =
        evNames (mainEvs (resolveMiddlewareWrapper (some rTest) none JSValue.null []
          JSValue.null infoDupDup).2) ++ tail) ∧
    ((∃ v, (resolveMiddlewareWrapper (some rTest) none JSValue.null [] JSValue.null
          infoDupDup).1 = Except.ok v) →
        evNames (mainEvs (resolveMiddlewareWrapper (some rTest) none JSValue.null []
          JSValue.null infoDupDup).2) =
          (parseSchemaDirectives ((none : Option (List (String × JSValue))).getD []) ++
            infoDupDup.fieldDirectives).map DirectiveNode.name) ∧
    ((mainEvs (resolveMiddlewareWrapper (some rTest) none JSValue.null [] JSValue.null
        infoDupDup).2).head?.map CallEvent.next =
      (mainEvs (resolveMiddlewareWrapper (some rTest) none JSValue.null [] JSValue.null
        infoDupDup).2).head?.map
          (fun _ => rTest JSValue.null [] JSValue.null infoDupDup)) ∧
    List.Chain' (fun a b => b.next = a.result)
      (mainEvs (resolveMiddlewareWrapper (some rTest) none JSValue.null [] JSValue.null
        infoDupDup).2) :=
  c1_amended rTest none JSValue.null [] JSValue.null infoDupDup
    (by decide)
    (by intro h; simp [parseSchemaDirectives, infoDupDup, node0] at h)

/-- C2, code bug.  The claim (and the spec) say an invocation named skip
or include never reaches the executed pipeline.  The filter of line 96
is only used to choose the FIRST executed directive; the loop of line
125 runs over the tail of the unfiltered list, so a built-in attached
after a custom directive is passed to resolveWithDirective, whose
configuration lookup finds the built-in skip without a resolve member
and the field rejects with a TypeError.  First conjunct: @duplicate
@skip makes the wrapped resolver reject instead of returning the
duplicate transform's value.  Second conjunct: @skip alone is correctly
excluded, showing the exclusion only works at the head position. -/
theorem c2_builtin_not_excluded :
    (resolveMiddlewareWrapper (some rTest) none JSValue.null [] JSValue.null
        infoDupSkip).1 =
      Except.error (JSError.typeError "directiveConfig.resolve is not a function") ∧
    resolveMiddlewareWrapper (some rTest) none JSValue.null [] JSValue.null infoOnlySkip =
      (rTest JSValue.null [] JSValue.null infoOnlySkip, []) :=
  ⟨rfl, rfl⟩

/-- C3, confirmed.  A field with no static directives configuration and
no syntactic directives other than the built-ins skip/include resolves
through the original resolver alone: the wrapped resolver returns
exactly the original resolver's result on the same source, args,
context and info, and performs no transform invocation. -/
theorem c3_no_directives_identity (r : Resolver) (source : JSValue)
    (args : List (String × JSValue)) (context : JSValue) (info : GraphQLResolveInfo)
    (hall : ∀ d ∈ info.fieldDirectives, DEFAULT_DIRECTIVES.contains d.name = true) :
    resolveMiddlewareWrapper (some r) none source args context info =
      (r source args context info, []) := by
  have hh : ((parseSchemaDirectives ((none : Option (List (String × JSValue))).getD [])
      ++ info.fieldDirectives).filter
      (fun d => !(DEFAULT_DIRECTIVES.contains d.name))).head? = none := by
    have hnil : (parseSchemaDirectives ((none : Option (List (String × JSValue))).getD
        []) ++ info.fieldDirectives).filter
        (fun d => !(DEFAULT_DIRECTIVES.contains d.name)) = [] := by
      rw [List.filter_eq_nil_iff]
      intro a ha
      have ham : a ∈ info.fieldDirectives := by
        simpa [parseSchemaDirectives] using ha
      rw [hall a ham]
      simp
    rw [hnil]
    rfl
  rw [resolveMiddlewareWrapper_eq_none (some r) none source args context info hh,
    Option.getD_some]

/-- C3, witness: a field carrying only @skip resolves to the original
resolver's value with an empty invocation trace. -/
theorem c3_no_directives_identity_witness :
    resolveMiddlewareWrapper (some rTest) none JSValue.null [] JSValue.null infoOnlySkip
      = (rTest JSValue.null [] JSValue.null infoOnlySkip, []) :=
  c3_no_directives_identity rTest JSValue.null [] JSValue.null infoOnlySkip
    (by decide)

/-- C4, counterexample.  The claim says the walk wraps each field
reachable from the root exactly once.  On the self-referential graph
type A { a: A } the walk terminates but wraps NOTHING: the guard of
line 163 skips a field entirely - it neither wraps it nor descends -
when the field's type name is already in the visited set, and A is
visited before its own field is examined. -/
theorem c4_counterexample :
    wrapFieldsWithMiddleware gSelf true 2 (some "A") [] = some (["A"], []) ∧
    ¬ (("A", "a") ∈ ([] : List (String × String))) :=
  ⟨rfl, List.not_mem_nil ("A", "a")⟩

/-- C4, amended.  The graph walk terminates on every type graph,
self-referential and mutually recursive graphs included: any fuel
exceeding the number of not-yet-visited type names completes the walk.
Each field's resolver is replaced AT MOST once (the wrap list is
duplicate-free when field labels are unique per type); a field whose
type name is already in the visited set when the loop reaches it is not
wrapped at all. -/
theorem c4_amended (g : Graph) (dw : Bool) (fuel : Nat) (n : String) (tm : List String)
    (hfuel : unvisitedCount g tm < fuel) (hg : gLabelsNodup g) :
    ∃ tm2 ws, wrapFieldsWithMiddleware g dw fuel (some n) tm = some (tm2, ws) ∧
      ws.Nodup := by
  obtain ⟨r, hr⟩ := Option.isSome_iff_exists.mp
    (wrapFieldsWithMiddleware_isSome g dw fuel (some n) tm hfuel)
  obtain ⟨tm2, ws⟩ := r
  exact ⟨tm2, ws, hr, wrapFieldsWithMiddleware_nodup g dw hg fuel n tm tm2 ws hr⟩

/-- C4, witness for the amended theorem on the acyclic two-type graph. -/
theorem c4_amended_witness :
    ∃ tm2 ws, wrapFieldsWithMiddleware gQT true 3 (some "Q") [] = some (tm2, ws) ∧
      ws.Nodup :=
  c4_amended gQT true 3 "Q" [] (by decide)
    (by show ∀ p ∈ gQT, ((p.2.map (fun q => q.1)).Nodup); decide)

/-- C5, counterexample.  The claim says the transform's source equals the
wrapped resolver's source for every source value.  Line 26 replaces a
falsy source: with source null and a query variable input = "x", the
single duplicate transform is invoked with source "x", not null. -/
theorem c5_counterexample :
    (resolveMiddlewareWrapper (some rTest) none JSValue.null [] JSValue.null
        infoInputVar).2.map (fun e => e.source) = [JSValue.str "x"] ∧
    JSValue.str "x" ≠ JSValue.null :=
  ⟨rfl, fun h => JSValue.noConfusion h⟩

/-- C5, amended.  Every transform invocation performed by the wrapped
resolver receives context and info unchanged from the field resolution
context, and receives the source of line 26: the wrapped resolver's
source when truthy, otherwise info.variableValues.input_0, otherwise
info.variableValues.input, otherwise an empty object. -/
theorem c5_amended (resolve? : Option Resolver) (dirs? : Option (List (String × JSValue)))
    (source : JSValue) (args : List (String × JSValue)) (context : JSValue)
    (info : GraphQLResolveInfo) :
    (resolveMiddlewareWrapper resolve? dirs? source args context info).2.map
        (fun e => (e.source, e.context, e.info)) =
      List.replicate
        (resolveMiddlewareWrapper resolve? dirs? source args context info).2.length
        (effectiveSource source info, context, info) := by
  have hmem : ∀ b ∈ (resolveMiddlewareWrapper resolve? dirs? source args context
      info).2.map (fun e => (e.source, e.context, e.info)),
      b = (effectiveSource source info, context, info) := by
    intro b hb
    rw [List.mem_map] at hb
    obtain ⟨e, he, rfl⟩ := hb
    obtain ⟨h1, h2, h3⟩ := resolveMiddlewareWrapper_events resolve? dirs? source args
      context info e he
    rw [h1, h2, h3]
  rw [List.eq_replicate_of_mem hmem, List.length_map]

/-- C6, confirmed.  First conjunct: once any step of a field's pipeline
has rejected, every remaining loop iteration passes that exact rejection
through, so the promise the wrapped resolver returned rejects with that
error - the core never converts a rejection into a successful
resolution (the catch handlers' invocations are discarded).  Second
conjunct: when the seeded first step rejects, the wrapped resolver's
promise rejects with the same error. -/
theorem c6_rejection_propagation :
    (∀ (source context : JSValue) (info : GraphQLResolveInfo) (ds : List DirectiveNode)
        (evs : List CallEvent) (e : JSError),
      (List.foldl (pipelineStep source context info) (Except.error e, evs) ds).1 =
        Except.error e) ∧
    (∀ (resolve? : Option Resolver) (dirs? : Option (List (String × JSValue)))
        (source : JSValue) (args : List (String × JSValue)) (context : JSValue)
        (info : GraphQLResolveInfo) (d0 : DirectiveNode) (dtail : List DirectiveNode)
        (e : JSError),
      parseSchemaDirectives (dirs?.getD []) ++ info.fieldDirectives = d0 :: dtail →
      ((parseSchemaDirectives (dirs?.getD []) ++ info.fieldDirectives).filter
          (fun d => !(DEFAULT_DIRECTIVES.contains d.name))).head? = some d0 →
      (resolveWithDirective
          (fun _ => (resolve?.getD defaultResolveFn) source args context info)
          source d0 context info).1 = Except.error e →
      (resolveMiddlewareWrapper resolve? dirs? source args context info).1 =
        Except.error e) := by
  constructor
  · intro source context info ds evs e
    exact (foldl_pipelineStep_error source context info ds e evs).1
  · intro resolve? dirs? source args context info d0 dtail e hd0 hh hr
    rw [resolveMiddlewareWrapper_eq_chain resolve? dirs? source args context info d0
      dtail hd0 hh]
    cases dtail with
    | nil =>
      rw [wrapperChain, if_pos (by simp)]
      exact hr
    | cons d1 dtail2 =>
      rw [wrapperChain, if_neg (by rw [List.length_cons, List.length_cons]; omega)]
      rw [foldl_pipelineStep_append]
      show (List.foldl (pipelineStep source context info)
        ((resolveWithDirective
          (fun _ => (resolve?.getD defaultResolveFn) source args context info)
          source d0 context info).1, []) (d1 :: dtail2)).1 = Except.error e
      rw [hr]
      exact (foldl_pipelineStep_error source context info (d1 :: dtail2) e []).1

/-- C6, witness: a field whose only directive is the throwing transform
makes the wrapped resolver reject with the thrown error. -/
theorem c6_rejection_propagation_witness :
    (resolveMiddlewareWrapper (some rTest) none JSValue.null [] JSValue.null
        infoThrows).1 = Except.error (JSError.thrown (JSValue.str "Test Error")) :=
  c6_rejection_propagation.2 (some rTest) none JSValue.null [] JSValue.null infoThrows
    (node0 "throws") [] (JSError.thrown (JSValue.str "Test Error")) rfl rfl rfl

/-- C7, confirmed.  applySchemaCustomDirectives rejects any non-schema
argument with the synchronous descriptive Error of line 204 before any
field resolver is modified (the wrap list of the error outcome is
empty), and on a schema instance it performs the walks and returns
true. -/
theorem c7_apply_schema :
    (∀ v : JSValue, applySchemaCustomDirectives (SchemaArg.notSchema v) =
      (Except.error (JSError.thrown
        (JSValue.str "Schema must be instanceof GraphQLSchema")), [])) ∧
    (∀ s : GraphQLSchemaModel,
      (applySchemaCustomDirectives (SchemaArg.schema s)).1 = Except.ok true) :=
  ⟨fun _ => rfl, fun _ => rfl⟩

/-- C8, counterexample.  The claim says the mutation root type's own
fields all get wrapped resolvers.  For a mutation root M whose field m
returns M itself, the root's name is put into the visited set before
its fields are examined, so the guard of line 163 skips the field m
entirely: it keeps its original resolver. -/
theorem c8_counterexample :
    wrapFieldsWithMiddleware gMut false 2 (some "M") [] = some (["M"], []) ∧
    ¬ (("M", "m") ∈ ([] : List (String × String))) :=
  ⟨rfl, List.not_mem_nil ("M", "m")⟩

/-- C8, amended.  The shallow walk used for the mutation root (deepWrap
false): an absent root is a no-op that wraps nothing; a present root n
wraps exactly its own fields whose type name is not in the visited set
(which contains n itself), each tagged with the root's name - nothing
below the mutation root is ever wrapped, so the fields of types
returned by mutation fields keep their original resolvers. -/
theorem c8_amended :
    (∀ (g : Graph) (fuel : Nat) (tm : List String),
      wrapFieldsWithMiddleware g false (fuel + 1) none tm = some (tm, [])) ∧
    (∀ (g : Graph) (fuel : Nat) (n : String) (tm : List String),
      wrapFieldsWithMiddleware g false (fuel + 1) (some n) tm =
        some (n :: tm, (((lookupType g n).getD []).filter
          (fun p => !(typeRefMet (n :: tm) p.2))).map (fun p => (n, p.1)))) := by
  refine ⟨fun g fuel tm => rfl, fun g fuel n tm => ?_⟩
  simp only [wrapFieldsWithMiddleware]
  exact wrapLoopWith_shallow g (wrapFieldsWithMiddleware g false fuel)
    ((lookupType g n).getD []) n (n :: tm)

/-- C9, confirmed.  If any attached non-built-in invocation bears a name
that no directive registered in schema._directives matches, the wrapped
resolver's outcome is a rejection (the configuration lookup yields
nothing and the TypeError surfaces), never a silent skip of the unknown
directive and never the field's unmodified value. -/
theorem c9_unknown_directive_rejects (resolve? : Option Resolver)
    (dirs? : Option (List (String × JSValue))) (source : JSValue)
    (args : List (String × JSValue)) (context : JSValue) (info : GraphQLResolveInfo)
    (d : DirectiveNode)
    (hd : d ∈ parseSchemaDirectives (dirs?.getD []) ++ info.fieldDirectives)
    (hnb : DEFAULT_DIRECTIVES.contains d.name = false)
    (hun : lookupDirective info.schemaDirectives d.name = none) :
    ∃ e, (resolveMiddlewareWrapper resolve? dirs? source args context info).1 =
      Except.error e := by
  have hdf : d ∈ (parseSchemaDirectives (dirs?.getD []) ++ info.fieldDirectives).filter
      (fun d2 => !(DEFAULT_DIRECTIVES.contains d2.name)) := by
    rw [List.mem_filter]
    refine ⟨hd, ?_⟩
    show (!(DEFAULT_DIRECTIVES.contains d.name)) = true
    rw [hnb]
    rfl
  cases hfl : (parseSchemaDirectives (dirs?.getD []) ++ info.fieldDirectives).filter
      (fun d2 => !(DEFAULT_DIRECTIVES.contains d2.name)) with
  | nil =>
    rw [hfl] at hdf
    exact absurd hdf (List.not_mem_nil d)
  | cons d0 t =>
    have hh : ((parseSchemaDirectives (dirs?.getD []) ++ info.fieldDirectives).filter
        (fun d2 => !(DEFAULT_DIRECTIVES.contains d2.name))).head? = some d0 := by
      rw [hfl]
      rfl
    rw [resolveMiddlewareWrapper_eq_some resolve? dirs? source args context info d0 hh]
    cases hd0 : parseSchemaDirectives (dirs?.getD []) ++ info.fieldDirectives with
    | nil =>
      rw [hd0] at hd
      exact absurd hd (List.not_mem_nil d)
    | cons c rest =>
      cases rest with
      | nil =>
        rw [if_pos (by simp)]
        have hsubf : (parseSchemaDirectives (dirs?.getD []) ++
            info.fieldDirectives).filter
            (fun d2 => !(DEFAULT_DIRECTIVES.contains d2.name)) ⊆
            parseSchemaDirectives (dirs?.getD []) ++ info.fieldDirectives := by
          intro x hx
          exact (List.mem_filter.mp hx).1
        have hd0mem : d0 ∈ parseSchemaDirectives (dirs?.getD []) ++ info.fieldDirectives :=
          hsubf (by rw [hfl]; exact List.mem_cons_self d0 t)
        rw [hd0] at hd0mem
        have hdmem := hd
        rw [hd0] at hdmem
        have hd0c : d0 = c := List.mem_singleton.mp hd0mem
        have hdc : d = c := List.mem_singleton.mp hdmem
        refine ⟨JSError.typeError "Cannot read property resolve of undefined", ?_⟩
        show (resolveWithDirective
          (fun _ => (resolve?.getD defaultResolveFn) source args context info)
          source d0 context info).1 = _
        rw [hd0c, ← hdc]
        exact resolveWithDirective_lookup_none _ source d context info hun
      | cons d1 rest2 =>
        rw [if_neg (by rw [List.length_cons, List.length_cons]; omega)]
        simp only [List.drop_succ_cons, List.drop_zero]
        have hdmem := hd
        rw [hd0] at hdmem
        rcases List.mem_cons.mp hdmem with hdc | hdrest
        · have hpredc : ((fun d2 => !(DEFAULT_DIRECTIVES.contains d2.name)) c) = true := by
            show (!(DEFAULT_DIRECTIVES.contains c.name)) = true
            rw [← hdc, hnb]
            rfl
          have hfl2 := hfl
          rw [hd0, List.filter_cons, if_pos hpredc] at hfl2
          have hd0c : d0 = c := by
            injection hfl2 with h1 h2
            exact h1.symm
          refine ⟨JSError.typeError "Cannot read property resolve of undefined", ?_⟩
          have hR : (resolveWithDirective
              (fun _ => (resolve?.getD defaultResolveFn) source args context info)
              source d0 context info).1 =
              Except.error (JSError.typeError "Cannot read property resolve of undefined") := by
            rw [hd0c, ← hdc]
            exact resolveWithDirective_lookup_none _ source d context info hun
          rw [hR]
          exact (foldl_pipelineStep_error source context info (d1 :: rest2) _ _).1
        · exact foldl_pipelineStep_unknown source context info (d1 :: rest2) _
            ⟨d, hdrest, hun⟩

/-- C9, witness: a field annotated with an unregistered @foo rejects. -/
theorem c9_unknown_directive_rejects_witness :
    ∃ e, (resolveMiddlewareWrapper (some rTest) none JSValue.null [] JSValue.null
      infoUnknown).1 = Except.error e :=
  c9_unknown_directive_rejects (some rTest) none JSValue.null [] JSValue.null
    infoUnknown (node0 "foo")
    (by simp [parseSchemaDirectives, infoUnknown])
    (by decide) rfl

/-- C10, confirmed.  When a step's transform invocation (on a fulfilled
chain) yields a rejected promise, the loop's defer.catch invokes the
same directive's resolution a second time with a next closure producing
a promise rejected with that same error; the extra invocation's events
are appended to the trace marked as catch-path, its result is discarded,
and the chain's outcome stays that same rejection. -/
theorem c10_catch_reinvocation (source context : JSValue) (info : GraphQLResolveInfo)
    (v : JSValue) (evs : List CallEvent) (d : DirectiveNode) (e : JSError)
    (h : (resolveWithDirective (fun _ => Except.ok v) source d context info).1 =
      Except.error e) :
    (pipelineStep source context info (Except.ok v, evs) d).1 = Except.error e ∧
    (pipelineStep source context info (Except.ok v, evs) d).2 =
      evs ++ (resolveWithDirective (fun _ => Except.ok v) source d context info).2 ++
        (resolveWithDirective (fun _ => Except.error e) source d context info).2.map
          markErrorPath ∧
    (∀ ev ∈ (resolveWithDirective (fun _ => Except.error e) source d context info).2,
      ev.next = Except.error e) := by
  refine ⟨?_, ?_, ?_⟩
  · simp [pipelineStep, h]
  · simp [pipelineStep, h, catchEvents]
  · intro ev hev
    rcases resolveWithDirective_spec (fun _ => Except.error e) source d context info with
      ⟨h2, _, _⟩ | ⟨ev2, h2, _, _, hnx, _, _, _, _⟩
    · rw [h2] at hev
      exact absurd hev (List.not_mem_nil ev)
    · rw [h2] at hev
      rw [List.mem_singleton] at hev
      subst hev
      exact hnx

/-- C10, witness: the throwing directive on a fulfilled upstream value. -/
theorem c10_catch_reinvocation_witness :
    (pipelineStep JSValue.null JSValue.null infoThrows
        (Except.ok (JSValue.str "test"), []) (node0 "throws")).1 =
      Except.error (JSError.thrown (JSValue.str "Test Error")) ∧
    (pipelineStep JSValue.null JSValue.null infoThrows
        (Except.ok (JSValue.str "test"), []) (node0 "throws")).2 =
      [] ++ (resolveWithDirective (fun _ => Except.ok (JSValue.str "test")) JSValue.null
          (node0 "throws") JSValue.null infoThrows).2 ++
        (resolveWithDirective
          (fun _ => Except.error (JSError.thrown (JSValue.str "Test Error"))) JSValue.null
          (node0 "throws") JSValue.null infoThrows).2.map markErrorPath ∧
    (∀ ev ∈ (resolveWithDirective
        (fun _ => Except.error (JSError.thrown (JSValue.str "Test Error"))) JSValue.null
        (node0 "throws") JSValue.null infoThrows).2,
      ev.next = Except.error (JSError.thrown (JSValue.str "Test Error"))) :=
  c10_catch_reinvocation JSValue.null JSValue.null infoThrows (JSValue.str "test") []
    (node0 "throws") (JSError.thrown (JSValue.str "Test Error")) rfl
